import Mathlib

/-!
Verification of the SilentMatch OPRF blind-matching core.

The Python sources (`config.py`, `crypto_engine.py`, `client.py`,
`server.py`) are shallowly embedded below: pure functions become Lean
functions over `Nat`, `String` and `List`; the random draws made by
`secrets.randbelow` / `secrets.token_hex` are passed in as explicit
arguments; the file-system stores (one ledger file per key version, the
key file, the client file) become explicit fields of the server state;
fallible operations return `Option`.

Character-level helpers mirror the Python string methods (`str.lower`,
`str.strip`, `re.sub`) on the ASCII alphabet that the repository's data
uses.
-/

/-! ## Association lists

Python `dict`s keyed by strings or integers are embedded as association
lists with insert-or-overwrite assignment (`d[k] = v`) and lookup. -/

/-- Lookup in an association list; models `d.get(k)` / `d[k]`. -/
def lookupA {α β : Type} [DecidableEq α] (k : α) : List (α × β) → Option β
  | [] => none
  | (k', v) :: rest => if k = k' then some v else lookupA k rest

/-- Insert-or-overwrite; models the Python dict assignment `d[k] = v`. -/
def upsertA {α β : Type} [DecidableEq α] (k : α) (v : β) : List (α × β) → List (α × β)
  | [] => [(k, v)]
  | (k', v') :: rest => if k = k' then (k, v) :: rest else (k', v') :: upsertA k v rest

/-! ## Python string primitives (ASCII) -/

/-- `str.lower` on one ASCII character. -/
def pyLower (c : Char) : Char :=
  if 65 ≤ c.toNat ∧ c.toNat ≤ 90 then Char.ofNat (c.toNat + 32) else c

/-- Python whitespace (the class matched by `str.strip` and `\s`). -/
def pyIsSpace (c : Char) : Bool :=
  c.toNat = 32 || c.toNat = 9 || c.toNat = 10 || c.toNat = 13 || c.toNat = 11 || c.toNat = 12

/-- ASCII digit test (the class matched by `\d`). -/
def pyIsDigit (c : Char) : Bool :=
  decide (48 ≤ c.toNat) && decide (c.toNat ≤ 57)

/-- `str.strip`: drop leading and trailing whitespace. -/
def pyStrip (l : List Char) : List Char :=
  ((l.dropWhile pyIsSpace).reverse.dropWhile pyIsSpace).reverse

/-- `re.sub(r'\s+', ' ', s)`: collapse each maximal whitespace run to a
single space.  The flag records whether the previous character was part
of a run already replaced. -/
def collapseWs : List Char → Bool → List Char
  | [], _ => []
  | c :: rest, prev =>
    if pyIsSpace c then
      if prev then collapseWs rest true else ' ' :: collapseWs rest true
    else c :: collapseWs rest false

/-! ## config.py -/

/-- The fixed prime modulus from `config.py` (the RFC 3526 1536-bit
MODP group prime), written with the same hex digits. -/
def PRIME_MODULUS : ℕ := 0xFFFFFFFFFFFFFFFFC90FDAA22168C234C4C6628B80DC1CD129024E088A67CC74020BBEA63B139B22514A08798E3404DDEF9519B3CD3A431B302B0A6DF25F14374FE1356D6D51C245E485B576625E7EC6F44C42E9A637ED6B0BFF5CB6F406B7EDEE386BFB5A899FA5AE9F24117C4B1FE649286651ECE45B3DC2007CB8A163BF0598DA48361C55D39A69163FA8FD24CF5F83655D23DCA3AD961C62F356208552BB9ED529077096966D670C354E4ABC9804F1746C08CA237327FFFFFFFFFFFFFFFF

/-- `phi = PRIME_MODULUS - 1`, the exponent-space modulus
(`client.py` binds it locally; `crypto_engine.py` writes it inline). -/
def PHI : ℕ := PRIME_MODULUS - 1

/-! ## crypto_engine.py

`hashlib.sha256` is embedded as the FIPS 180-4 SHA-256 over byte lists,
with all 32-bit words represented as `Nat` reduced `% 2^32`. -/

/-- `2^32`, the SHA-256 word modulus. -/
def U32 : ℕ := 0x100000000

/-- Rotate a 32-bit word right by `k`. -/
def rotr (k n : ℕ) : ℕ := (n / 2 ^ k + n % 2 ^ k * 2 ^ (32 - k)) % U32

/-- SHA-256 big sigma 0. -/
def bsig0 (x : ℕ) : ℕ := rotr 2 x ^^^ rotr 13 x ^^^ rotr 22 x

/-- SHA-256 big sigma 1. -/
def bsig1 (x : ℕ) : ℕ := rotr 6 x ^^^ rotr 11 x ^^^ rotr 25 x

/-- SHA-256 small sigma 0. -/
def ssig0 (x : ℕ) : ℕ := rotr 7 x ^^^ rotr 18 x ^^^ x / 2 ^ 3

/-- SHA-256 small sigma 1. -/
def ssig1 (x : ℕ) : ℕ := rotr 17 x ^^^ rotr 19 x ^^^ x / 2 ^ 10

/-- SHA-256 choice function (`¬x` is taken inside 32 bits). -/
def chF (x y z : ℕ) : ℕ := (x &&& y) ^^^ ((x ^^^ 0xFFFFFFFF) &&& z)

/-- SHA-256 majority function. -/
def majF (x y z : ℕ) : ℕ := (x &&& y) ^^^ (x &&& z) ^^^ (y &&& z)

/-- The 64 SHA-256 round constants of FIPS 180-4, written in
decimal. -/
def shaK : List ℕ :=
  [1116352408, 1899447441, 3049323471, 3921009573, 961987163, 1508970993,
   2453635748, 2870763221, 3624381080, 310598401, 607225278, 1426881987,
   1925078388, 2162078206, 2614888103, 3248222580, 3835390401, 4022224774,
   264347078, 604807628, 770255983, 1249150122, 1555081692, 1996064986,
   2554220882, 2821834349, 2952996808, 3210313671, 3336571891, 3584528711,
   113926993, 338241895, 666307205, 773529912, 1294757372, 1396182291,
   1695183700, 1986661051, 2177026350, 2456956037, 2730485921, 2820302411,
   3259730800, 3345764771, 3516065817, 3600352804, 4094571909, 275423344,
   430227734, 506948616, 659060556, 883997877, 958139571, 1322822218,
   1537002063, 1747873779, 1955562222, 2024104815, 2227730452, 2361852424,
   2428436474, 2756734187, 3204031479, 3329325298]

/-- The SHA-256 initial hash state of FIPS 180-4, written in
decimal. -/
def shaH0 : List ℕ :=
  [1779033703, 3144134277, 1013904242, 2773480762,
   1359893119, 2600822924, 528734635, 1541459225]

/-- Group bytes into big-endian 32-bit words. -/
def beWords : List ℕ → List ℕ
  | b0 :: b1 :: b2 :: b3 :: rest => (((b0 * 256 + b1) * 256 + b2) * 256 + b3) :: beWords rest
  | _ => []

/-- SHA-256 padding: append `0x80`, zeros to 56 mod 64, then the
64-bit big-endian bit length. -/
def shaPad (msg : List ℕ) : List ℕ :=
  let L := msg.length
  let z := (120 - (L + 1) % 64) % 64
  let bits := 8 * L
  msg ++ 0x80 :: List.replicate z 0 ++
    [bits / 2 ^ 56 % 256, bits / 2 ^ 48 % 256, bits / 2 ^ 40 % 256, bits / 2 ^ 32 % 256,
     bits / 2 ^ 24 % 256, bits / 2 ^ 16 % 256, bits / 2 ^ 8 % 256, bits % 256]

/-- Extend the 16-word message schedule by `n` further words. -/
def extendW : ℕ → List ℕ → List ℕ
  | 0, ws => ws
  | n + 1, ws =>
    let i := ws.length
    let w := (ssig1 (ws.getD (i - 2) 0) + ws.getD (i - 7) 0 +
              ssig0 (ws.getD (i - 15) 0) + ws.getD (i - 16) 0) % U32
    extendW n (ws ++ [w])

/-- One SHA-256 compression round on the 8-word working state. -/
def shaRound (st : List ℕ) (kw : ℕ × ℕ) : List ℕ :=
  match st with
  | [a, b, c, d, e, f, g, h] =>
    let t1 := (h + bsig1 e + chF e f g + kw.1 + kw.2) % U32
    let t2 := (bsig0 a + majF a b c) % U32
    [(t1 + t2) % U32, a, b, c, (d + t1) % U32, e, f, g]
  | other => other

/-- Compress one 64-byte chunk into the hash state. -/
def shaChunk (chunk : List ℕ) (H : List ℕ) : List ℕ :=
  let ws := extendW 48 (beWords chunk)
  let st := (shaK.zip ws).foldl shaRound H
  (H.zip st).map (fun p => (p.1 + p.2) % U32)

/-- Process the padded message 64 bytes at a time (`fuel` bounds the
number of steps; it is instantiated with the message length). -/
def shaChunks : ℕ → List ℕ → List ℕ → List ℕ
  | 0, _, H => H
  | fuel + 1, bytes, H =>
    match bytes with
    | [] => H
    | b :: rest => shaChunks fuel ((b :: rest).drop 64) (shaChunk ((b :: rest).take 64) H)

/-- SHA-256 of a byte list, as the 8-word final state. -/
def sha256Words (msg : List ℕ) : List ℕ :=
  let padded := shaPad msg
  shaChunks padded.length padded shaH0

/-- `int(hashlib.sha256(bytes).hexdigest(), 16)`: the digest read as a
big-endian 256-bit integer. -/
def sha256Int (msg : List ℕ) : ℕ :=
  (sha256Words msg).foldl (fun acc w => acc * U32 + w) 0

/-- UTF-8 encoding of one character (`str.encode()`). -/
def utf8Char (c : Char) : List ℕ :=
  let n := c.toNat
  if n < 0x80 then [n]
  else if n < 0x800 then [0xC0 + n / 64, 0x80 + n % 64]
  else if n < 0x10000 then [0xE0 + n / 4096, 0x80 + n / 64 % 64, 0x80 + n % 64]
  else [0xF0 + n / 262144, 0x80 + n / 4096 % 64, 0x80 + n / 64 % 64, 0x80 + n % 64]

/-- UTF-8 encoding of a character list. -/
def utf8Bytes (l : List Char) : List ℕ :=
  l.foldr (fun c acc => utf8Char c ++ acc) []

/-- The cleaning step of `OPRFMath.map_string_to_group`:
`text.strip().lower().replace(" ", "")`. -/
def mapClean (text : String) : List Char :=
  ((pyStrip text.data).map pyLower).filter (fun c => c != ' ')

/-- `OPRFMath.map_string_to_group`: deterministically maps a string to
a large integer by hashing its cleaned form with SHA-256. -/
def map_string_to_group (text : String) : ℕ :=
  sha256Int (utf8Bytes (mapClean text))

/-- `OPRFMath.mod_pow`: `pow(base, exponent, PRIME_MODULUS)`. -/
def mod_pow (base exponent : ℕ) : ℕ :=
  base ^ exponent % PRIME_MODULUS

/-- `OPRFMath.mod_inverse`: `pow(value, -1, PRIME_MODULUS - 1)`.
Python raises `ValueError` when the value is not invertible modulo
`PRIME_MODULUS - 1`; that branch is the `none` case.  On success the
result is the canonical representative in `[0, PHI)` produced by the
extended Euclidean algorithm. -/
def mod_inverse (value : ℕ) : Option ℕ :=
  if Nat.gcd value PHI = 1 then some ((Nat.gcdA value PHI % (PHI : ℤ)).toNat) else none

/-! ## client.py — BankSecurityModule -/

/-- `BankSecurityModule._generate_valid_blinding_factor`: repeatedly
draws `secrets.randbelow(phi)` until `r > 1 and gcd(r, phi) == 1`.
The stream of random draws is passed in as a list (each element models
one `randbelow(phi)` result); the loop returns the first acceptable
draw, `none` if the finite stream is exhausted. -/
def generate_valid_blinding_factor (draws : List ℕ) : Option ℕ :=
  draws.find? (fun r => decide (1 < r) && decide (Nat.gcd r PHI = 1))

/-- `BankSecurityModule.normalize_input`: canonicalize a typed
attribute value and tag it with its kind.  Mirrors the Python dispatch
exactly: empty input yields `None`; otherwise lowercase and strip,
then per-kind cleaning, then the `f"{data_type}:{clean}"` tag. -/
def normalize_input (data_type value : String) : Option String :=
  if value = "" then none
  else
    let v := pyStrip (value.data.map pyLower)
    let clean :=
      if data_type = "email" then v.filter (fun c => c != ' ')
      else if data_type = "phone" then v.filter pyIsDigit
      else if data_type = "sin" || data_type = "nas" then v.filter pyIsDigit
      else if data_type = "name" then collapseWs v false
      else v
    some (String.mk (data_type.data ++ ':' :: clean))

/-- `hex(n)[2:]`: lowercase hex digits of `n`, no leading zeros. -/
def hexStr (n : ℕ) : String :=
  String.mk (Nat.toDigits 16 n)

/-- The per-attribute OPRF client flow of
`BankSecurityModule.process_ingestion` / `process_verification`, after
normalization: blind with the session factor `r`, have the server sign
with secret `key`, unblind with `mod_inverse r`, render as hex.
`none` models the `ValueError` that `mod_inverse` would raise on a
non-invertible blinding factor. -/
def client_final_signature (clean_val : String) (r key : ℕ) : Option String :=
  let blinded_val := mod_pow (map_string_to_group clean_val) r
  let signed_val := mod_pow blinded_val key
  (mod_inverse r).map (fun inv_r => hexStr (mod_pow signed_val inv_r))

/-! ## server.py -/

/-- In-memory state of `KeyManager`: the current version pointer and
the version-to-secret map (`data/server_keys.json`). -/
structure KMState where
  current_version : ℕ
  keys : List (ℕ × ℕ)
  deriving DecidableEq

/-- `KeyManager.rotate`, with the `secrets.randbelow(PRIME_MODULUS - 1)`
draw passed in explicitly: bump the version, store the fresh secret
under it, return the new state and the new version number. -/
def KeyManager_rotate (draw : ℕ) (s : KMState) : KMState × ℕ :=
  let v := s.current_version + 1
  (⟨v, upsertA v draw s.keys⟩, v)

/-- `KeyManager.get_key`: `self._keys.get(version)`. -/
def get_key (version : ℕ) (s : KMState) : Option ℕ :=
  lookupA version s.keys

/-- One client record (`data/authorized_clients.json` values). -/
structure ClientInfo where
  name : String
  last_sync_version : ℕ
  deriving DecidableEq

/-- `ClientManager.create_api_key`, with the `secrets.token_hex(16)`
credential passed in explicitly: register it with sync version 0. -/
def create_api_key (bank_name api_key : String) (clients : List (String × ClientInfo)) :
    List (String × ClientInfo) × String :=
  (upsertA api_key ⟨bank_name, 0⟩ clients, api_key)

/-- `ClientManager.update_sync_status`: if the key is registered, set
its `last_sync_version`; otherwise do nothing. -/
def update_sync_status (api_key : String) (key_version : ℕ)
    (clients : List (String × ClientInfo)) : List (String × ClientInfo) :=
  match lookupA api_key clients with
  | some info => upsertA api_key ⟨info.name, key_version⟩ clients
  | none => clients

/-- The `{"status": ..., "msg": ...}` dict returned by
`ClientManager.check_health`. -/
structure HealthResponse where
  status : String
  msg : String
  deriving DecidableEq

/-- `ClientManager.check_health`: unknown key gives status `"ERROR"`;
a registered key is `"OUTDATED"` when strictly behind the server
version and `"OK"` otherwise. -/
def check_health (api_key : String) (current_server_version : ℕ)
    (clients : List (String × ClientInfo)) : HealthResponse :=
  match lookupA api_key clients with
  | none => ⟨"ERROR", "Invalid API Key"⟩
  | some info =>
    if info.last_sync_version < current_server_version then
      ⟨"OUTDATED",
       "CRITICAL: You are on v" ++ toString info.last_sync_version ++
       ". Server is on v" ++ toString current_server_version ++
       ". PREVIOUS DATA IS ARCHIVED/INVALID."⟩
    else ⟨"OK", "Client is synchronized."⟩

/-- One ledger record (`v{n}.json` values). -/
structure LedgerEntry where
  risk : String
  role : String
  key_version : ℕ
  deriving DecidableEq

/-- One element of the batch passed to
`SilentMatchNode.register_incident_batch`. -/
structure BatchItem where
  signature : String
  risk : String
  role : String
  key_version : ℕ
  deriving DecidableEq

/-- Result of one `check_status_batch` lookup. -/
inductive QueryResult where
  | FOUND (entry : LedgerEntry)
  | CLEAN
  deriving DecidableEq

/-- In-memory plus on-disk state of `SilentMatchNode`: the key manager,
the client registry, the active in-memory ledger, and the versioned
ledger files under `data/ledgers/` (`stores` maps version `n` to the
contents of `v{n}.json`). -/
structure NodeState where
  kms : KMState
  clients : List (String × ClientInfo)
  ledger : List (String × LedgerEntry)
  stores : List (ℕ × List (String × LedgerEntry))
  deriving DecidableEq

/-- `SilentMatchNode.save_db`: write the in-memory ledger to the file
of the active version. -/
def save_db (st : NodeState) : NodeState :=
  { st with stores := upsertA st.kms.current_version st.ledger st.stores }

/-- `SilentMatchNode.rotate_server`, with the fresh secret draw passed
in explicitly: rotate the key, reset the in-memory ledger to empty,
and write the new (empty) ledger file for the new version. -/
def rotate_server (draw : ℕ) (st : NodeState) : NodeState × ℕ :=
  let rot := KeyManager_rotate draw st.kms
  let st' := save_db { st with kms := rot.1, ledger := [] }
  (st', rot.2)

/-- `SilentMatchNode.authenticate`. -/
def authenticate (api_key : String) (st : NodeState) : HealthResponse :=
  check_health api_key st.kms.current_version st.clients

/-- `SilentMatchNode.sign_blinded_request`: sign with the secret of the
current version and return it with that version number; `none` models
the `TypeError` if the current version had no stored key. -/
def sign_blinded_request (blinded_val_int : ℕ) (st : NodeState) : Option (ℕ × ℕ) :=
  (get_key st.kms.current_version st.kms).map
    (fun key => (mod_pow blinded_val_int key, st.kms.current_version))

/-- `SilentMatchNode.register_incident_batch`: upsert every batch item
into the active in-memory ledger keyed by its signature, save that
ledger to the current version's file, then mark the submitting client
as synced to the current version. -/
def register_incident_batch (api_key : String) (batch_data : List BatchItem)
    (st : NodeState) : NodeState :=
  let ledger' := batch_data.foldl
    (fun L item => upsertA item.signature ⟨item.risk, item.role, item.key_version⟩ L)
    st.ledger
  let st' := save_db { st with ledger := ledger' }
  { st' with clients := update_sync_status api_key st.kms.current_version st'.clients }

/-- `SilentMatchNode.check_status_batch`: look each signature up in the
active in-memory ledger only. -/
def check_status_batch (signatures : List String) (st : NodeState) :
    List (String × QueryResult) :=
  signatures.map (fun sig =>
    match lookupA sig st.ledger with
    | some entry => (sig, QueryResult.FOUND entry)
    | none => (sig, QueryResult.CLEAN))

/-! ## Lemmas about the association-list primitives -/

/-- Looking up the key just upserted returns the new value. -/
theorem lookupA_upsertA_self {α β : Type} [DecidableEq α] (k : α) (v : β)
    (l : List (α × β)) : lookupA k (upsertA k v l) = some v := by
  induction l with
  | nil => simp [upsertA, lookupA]
  | cons hd tl ih =>
    obtain ⟨k', v'⟩ := hd
    by_cases h : k = k'
    · subst h; simp [upsertA, lookupA]
    · simp [upsertA, lookupA, h, ih]

/-- Upserting one key leaves lookups of any other key unchanged. -/
theorem lookupA_upsertA_ne {α β : Type} [DecidableEq α] {k k' : α} (h : k ≠ k')
    (v : β) (l : List (α × β)) : lookupA k (upsertA k' v l) = lookupA k l := by
  induction l with
  | nil => simp [upsertA, lookupA, h]
  | cons hd tl ih =>
    obtain ⟨a, b⟩ := hd
    by_cases h2 : k' = a
    · subst h2; simp [upsertA, lookupA, h]
    · by_cases h3 : k = a <;> simp [upsertA, lookupA, h2, h3, ih]

/-- Folding a batch whose signatures avoid `s` does not change the
lookup of `s`. -/
theorem lookupA_foldl_ingest_not_mem (l : List BatchItem)
    (L : List (String × LedgerEntry)) (s : String)
    (h : s ∉ l.map (fun x => x.signature)) :
    lookupA s (l.foldl
      (fun L item => upsertA item.signature ⟨item.risk, item.role, item.key_version⟩ L) L) =
    lookupA s L := by
  induction l generalizing L with
  | nil => rfl
  | cons b t ih =>
    simp only [List.map_cons, List.mem_cons] at h
    push_neg at h
    simp only [List.foldl_cons]
    rw [ih _ h.2, lookupA_upsertA_ne h.1]

/-! ## Claim theorems -/

/-- C3: immediately after `rotate_server` (and before any ingestion),
`check_status_batch` answers `CLEAN` for every queried signature —
the active in-memory ledger has been reset to empty — and rotation
rewrites only the new version's ledger file: the store of every other
version (in particular every prior version) is unchanged, while the
new version's store is written as the empty ledger. -/
theorem c3_rotation_invalidation (st : NodeState) (draw : ℕ) (sigs : List String)
    (v : ℕ) (hv : v ≠ st.kms.current_version + 1) :
    (rotate_server draw st).2 = st.kms.current_version + 1 ∧
    (∀ pr ∈ check_status_batch sigs (rotate_server draw st).1, pr.2 = QueryResult.CLEAN) ∧
    lookupA (rotate_server draw st).2 (rotate_server draw st).1.stores = some [] ∧
    lookupA v (rotate_server draw st).1.stores = lookupA v st.stores := by
  refine ⟨rfl, ?_, ?_, ?_⟩
  · intro pr hpr
    simp only [check_status_batch, rotate_server, KeyManager_rotate, save_db,
      List.mem_map, lookupA] at hpr
    obtain ⟨s, _, rfl⟩ := hpr
    rfl
  · simpa [rotate_server, KeyManager_rotate, save_db] using
      lookupA_upsertA_self (st.kms.current_version + 1) [] st.stores
  · simpa [rotate_server, KeyManager_rotate, save_db] using
      lookupA_upsertA_ne hv [] st.stores

/-- Witness for C3 at a concrete state: version 1 holds a flagged
signature, the server rotates, and the frame part is instantiated at
the prior version 1. -/
theorem c3_rotation_invalidation_witness :
    (1 : ℕ) ≠ 1 + 1 ∧
    lookupA 1 (rotate_server 9
      { kms := ⟨1, [(1, 7)]⟩, clients := [], ledger := [("a", ⟨"R", "P", 1⟩)],
        stores := [(1, [("a", ⟨"R", "P", 1⟩)])] }).1.stores =
    lookupA 1 ({ kms := ⟨1, [(1, 7)]⟩, clients := [], ledger := [("a", ⟨"R", "P", 1⟩)],
                 stores := [(1, [("a", ⟨"R", "P", 1⟩)])] } : NodeState).stores :=
  ⟨by decide,
   (c3_rotation_invalidation
      { kms := ⟨1, [(1, 7)]⟩, clients := [], ledger := [("a", ⟨"R", "P", 1⟩)],
        stores := [(1, [("a", ⟨"R", "P", 1⟩)])] } 9 ["a"] 1 (by decide)).2.2.2⟩

/-- C5 counterexample: `KeyManager.rotate` draws its secret with
`secrets.randbelow(PRIME_MODULUS - 1)`, whose range is `[0, PHI)`, so
the legal draw `0` is stored as the new version's secret even though
`0` is not in the claimed range `[1, PHI)`. -/
theorem c5_rotate_counterexample :
    (0 : ℕ) < PHI ∧
    get_key (KeyManager_rotate 0 ⟨0, []⟩).2 (KeyManager_rotate 0 ⟨0, []⟩).1 = some 0 ∧
    ¬ 1 ≤ (0 : ℕ) :=
  ⟨by decide, by decide, by decide⟩

/-- C5 (amended): every `KeyManager.rotate` call increments
`current_version` by exactly one, stores the drawn secret — an integer
in `[0, PHI)`, the range of `secrets.randbelow(PRIME_MODULUS - 1)` —
under the new version, returns the new version number, and leaves the
secret of every other stored version unchanged. -/
theorem c5_rotate_postcondition (s : KMState) (draw : ℕ) (h : draw < PHI) :
    (KeyManager_rotate draw s).1.current_version = s.current_version + 1 ∧
    (KeyManager_rotate draw s).2 = s.current_version + 1 ∧
    get_key (KeyManager_rotate draw s).2 (KeyManager_rotate draw s).1 = some draw ∧
    draw < PHI ∧
    (∀ v, v ≠ s.current_version + 1 →
      get_key v (KeyManager_rotate draw s).1 = get_key v s) := by
  refine ⟨rfl, rfl, ?_, h, ?_⟩
  · simpa [get_key, KeyManager_rotate] using
      lookupA_upsertA_self (s.current_version + 1) draw s.keys
  · intro v hv
    simpa [get_key, KeyManager_rotate] using lookupA_upsertA_ne hv draw s.keys

/-- Witness for C5 at a concrete key-manager state and draw. -/
theorem c5_rotate_postcondition_witness :
    (5 : ℕ) < PHI ∧
    ((KeyManager_rotate 5 ⟨3, [(3, 9)]⟩).1.current_version = 3 + 1 ∧
     (KeyManager_rotate 5 ⟨3, [(3, 9)]⟩).2 = 3 + 1 ∧
     get_key (KeyManager_rotate 5 ⟨3, [(3, 9)]⟩).2 (KeyManager_rotate 5 ⟨3, [(3, 9)]⟩).1 =
       some 5 ∧
     (5 : ℕ) < PHI ∧
     (∀ v, v ≠ 3 + 1 →
       get_key v (KeyManager_rotate 5 ⟨3, [(3, 9)]⟩).1 = get_key v ⟨3, [(3, 9)]⟩)) :=
  ⟨by decide, c5_rotate_postcondition ⟨3, [(3, 9)]⟩ 5 (by decide)⟩

/-- C7 counterexample: for an unregistered key the health check's
status is the literal string `"ERROR"` (with message `Invalid API
Key`), not `"INVALID_KEY"` as the claim names it. -/
theorem c7_counterexample :
    (check_health "k" 1 []).status = "ERROR" ∧
    (check_health "k" 1 []).msg = "Invalid API Key" ∧
    "ERROR" ≠ "INVALID_KEY" :=
  ⟨rfl, rfl, by decide⟩

/-- C7 (amended): the status check returns status `"ERROR"` (message
`Invalid API Key`) when the key is not registered; for a registered
key it returns `"OUTDATED"` exactly when the client's last synced
version is strictly below the current server version and `"OK"`
otherwise; and in the scenario register, ingest once, rotate server,
authenticate, the result for that client is `"OUTDATED"`. -/
theorem c7_staleness_verdicts :
    (∀ (api_key : String) (curv : ℕ) (clients : List (String × ClientInfo)),
      lookupA api_key clients = none →
        (check_health api_key curv clients).status = "ERROR") ∧
    (∀ (api_key : String) (curv : ℕ) (clients : List (String × ClientInfo))
        (info : ClientInfo), lookupA api_key clients = some info →
        (check_health api_key curv clients).status =
          (if info.last_sync_version < curv then "OUTDATED" else "OK")) ∧
    (authenticate "k"
      (rotate_server 9
        (register_incident_batch "k" [⟨"s1", "CREDIT_DEFAULT", "PERPETRATOR", 1⟩]
          { kms := ⟨1, [(1, 7)]⟩,
            clients := (create_api_key "BankA" "k" []).1,
            ledger := [], stores := [(1, [])] })).1).status = "OUTDATED" := by
  refine ⟨?_, ?_, by decide⟩
  · intro api_key curv clients h
    simp [check_health, h]
  · intro api_key curv clients info h
    by_cases hlt : info.last_sync_version < curv <;> simp [check_health, h, hlt]

/-- Witness for C7 on concrete registries: an unknown key and a
registered, outdated key. -/
theorem c7_staleness_verdicts_witness :
    lookupA "x" ([("k", ⟨"B", 0⟩)] : List (String × ClientInfo)) = none ∧
    (check_health "x" 1 [("k", ⟨"B", 0⟩)]).status = "ERROR" ∧
    lookupA "k" ([("k", ⟨"B", 0⟩)] : List (String × ClientInfo)) = some ⟨"B", 0⟩ ∧
    (check_health "k" 1 [("k", ⟨"B", 0⟩)]).status =
      (if (0 : ℕ) < 1 then "OUTDATED" else "OK") :=
  ⟨by decide, c7_staleness_verdicts.1 "x" 1 _ (by decide), by decide,
   c7_staleness_verdicts.2.1 "k" 1 _ ⟨"B", 0⟩ (by decide)⟩

/-- If `value` is coprime to `PHI`, `mod_inverse` succeeds and its
result is a multiplicative inverse of `value` modulo `PHI`. -/
theorem mod_inverse_spec (v : ℕ) (h : Nat.gcd v PHI = 1) :
    ∃ w, mod_inverse v = some w ∧ v * w % PHI = 1 := by
  have hPHI1 : 1 < PHI := by decide
  have hz : ((PHI : ℕ) : ℤ) ≠ 0 := by
    exact_mod_cast (by decide : (PHI : ℕ) ≠ 0)
  set A : ℤ := Nat.gcdA v PHI with hA
  set B : ℤ := Nat.gcdB v PHI with hB
  have hkey : ((Nat.gcd v PHI : ℕ) : ℤ) = v * A + PHI * B := Nat.gcd_eq_gcd_ab v PHI
  rw [h] at hkey
  push_cast at hkey
  refine ⟨(A % (PHI : ℤ)).toNat, by simp [mod_inverse, h], ?_⟩
  have hw : (((A % (PHI : ℤ)).toNat : ℕ) : ℤ) = A % (PHI : ℤ) :=
    Int.toNat_of_nonneg (Int.emod_nonneg A hz)
  have hcast : ((v * (A % (PHI : ℤ)).toNat % PHI : ℕ) : ℤ) =
      ((v : ℤ) * (A % (PHI : ℤ))) % (PHI : ℤ) := by
    push_cast [hw]
    ring_nf
  have hmain : ((v : ℤ) * (A % (PHI : ℤ))) % (PHI : ℤ) = 1 := by
    have h1 : ((v : ℤ) * (A % (PHI : ℤ))) % (PHI : ℤ) = ((v : ℤ) * A) % (PHI : ℤ) := by
      conv_lhs => rw [Int.mul_emod]
      conv_rhs => rw [Int.mul_emod]
      rw [Int.emod_emod_of_dvd A dvd_rfl]
    have h2 : (v : ℤ) * A = 1 - (PHI : ℤ) * B := by linarith [hkey]
    rw [h1, h2, Int.sub_emod, Int.mul_emod_right]
    have h3 : (1 : ℤ) % (PHI : ℤ) = 1 :=
      Int.emod_eq_of_lt (by norm_num) (by exact_mod_cast hPHI1)
    rw [h3]
    norm_num
    exact h3
  have := hcast.trans hmain
  exact_mod_cast this

/-- C4: `mod_inverse` computes in the exponent space: for every value
coprime to `PHI = PRIME_MODULUS - 1` it returns a `w` with
`value * w ≡ 1 (mod PHI)` — the inverse is taken modulo `PHI`, not
modulo the prime — and for every value not coprime to `PHI` it fails
(the `none` branch models the raised `ValueError`). -/
theorem c4_mod_inverse_exponent_space (v : ℕ) :
    (Nat.gcd v PHI = 1 → ∃ w, mod_inverse v = some w ∧ v * w % PHI = 1) ∧
    (Nat.gcd v PHI ≠ 1 → mod_inverse v = none) :=
  ⟨mod_inverse_spec v, fun h => by simp [mod_inverse, h]⟩

/-- Witness for C4: `5` is coprime to `PHI` and gets an inverse; `2`
divides `PHI` and makes `mod_inverse` fail. -/
theorem c4_mod_inverse_exponent_space_witness :
    (Nat.gcd 5 PHI = 1 ∧ ∃ w, mod_inverse 5 = some w ∧ 5 * w % PHI = 1) ∧
    (Nat.gcd 2 PHI ≠ 1 ∧ mod_inverse 2 = none) :=
  ⟨⟨by decide, (c4_mod_inverse_exponent_space 5).1 (by decide)⟩,
   ⟨by decide, (c4_mod_inverse_exponent_space 2).2 (by decide)⟩⟩

/-- C9: every value returned by the blinding-factor generator loop
satisfies `1 < r < PHI` and `gcd(r, PHI) = 1` (the draws come from
`secrets.randbelow(phi)`, hence are below `PHI`), and consequently
`mod_inverse` never hits its failure branch on a generated blinding
factor: the client's unblinding step cannot raise on its own factor. -/
theorem c9_blinding_factor_safety (draws : List ℕ) (r : ℕ)
    (hd : ∀ d ∈ draws, d < PHI)
    (h : generate_valid_blinding_factor draws = some r) :
    1 < r ∧ r < PHI ∧ Nat.gcd r PHI = 1 ∧ ∃ w, mod_inverse r = some w := by
  have hp := List.find?_some h
  have hm := List.mem_of_find?_eq_some h
  simp only [Bool.and_eq_true, decide_eq_true_eq] at hp
  obtain ⟨h1, h2⟩ := hp
  obtain ⟨w, hw, _⟩ := mod_inverse_spec r h2
  exact ⟨h1, hd r hm, h2, w, hw⟩

/-- Witness for C9 with the concrete draw stream `[5]`. -/
theorem c9_blinding_factor_safety_witness :
    (∀ d ∈ ([5] : List ℕ), d < PHI) ∧
    generate_valid_blinding_factor [5] = some 5 ∧
    (1 < 5 ∧ 5 < PHI ∧ Nat.gcd 5 PHI = 1 ∧ ∃ w, mod_inverse 5 = some w) :=
  ⟨by decide, by decide, c9_blinding_factor_safety [5] 5 (by decide) (by decide)⟩

/-- C6 counterexample: with the server on version 2, ingesting an
entry whose version field is 1 does not touch the version-1 ledger —
the entry lands in the active (version-2) ledger instead, so entries
are not routed by their version field. -/
theorem c6_counterexample :
    lookupA 1 (register_incident_batch "k" [⟨"a", "IDENTITY_THEFT", "VICTIM", 1⟩]
      { kms := ⟨2, [(1, 5), (2, 7)]⟩, clients := [("k", ⟨"BankA", 2⟩)],
        ledger := [], stores := [(1, []), (2, [])] }).stores = some [] ∧
    lookupA 2 (register_incident_batch "k" [⟨"a", "IDENTITY_THEFT", "VICTIM", 1⟩]
      { kms := ⟨2, [(1, 5), (2, 7)]⟩, clients := [("k", ⟨"BankA", 2⟩)],
        ledger := [], stores := [(1, []), (2, [])] }).stores =
      some [("a", ⟨"IDENTITY_THEFT", "VICTIM", 1⟩)] ∧
    (1 : ℕ) ≠ 2 := by
  refine ⟨by decide, by decide, by decide⟩

/-- C6 (amended): `register_incident_batch` upserts every entry, keyed
by its signature, into the single ACTIVE in-memory ledger — the
entry's version field is stored in the record but ignored for routing
— persists that ledger to the current version's file, and afterwards
sets the submitting (registered) client's last synced version to the
server's current version.  The `batch = l1 ++ item :: l2` split with
no later duplicate of `item`'s signature captures the
insert-or-overwrite (last write wins) semantics. -/
theorem c6_ingest_routing (st : NodeState) (api_key : String) (batch : List BatchItem)
    (info : ClientInfo) (l1 : List BatchItem) (item : BatchItem) (l2 : List BatchItem)
    (hk : lookupA api_key st.clients = some info)
    (hb : batch = l1 ++ item :: l2)
    (hs : item.signature ∉ l2.map (fun x => x.signature)) :
    lookupA item.signature (register_incident_batch api_key batch st).ledger =
      some ⟨item.risk, item.role, item.key_version⟩ ∧
    lookupA st.kms.current_version (register_incident_batch api_key batch st).stores =
      some (register_incident_batch api_key batch st).ledger ∧
    lookupA api_key (register_incident_batch api_key batch st).clients =
      some ⟨info.name, st.kms.current_version⟩ := by
  refine ⟨?_, ?_, ?_⟩
  · simp only [register_incident_batch, save_db, hb, List.foldl_append, List.foldl_cons]
    rw [lookupA_foldl_ingest_not_mem l2 _ _ hs, lookupA_upsertA_self]
  · simp only [register_incident_batch, save_db]
    exact lookupA_upsertA_self _ _ _
  · simp only [register_incident_batch, save_db, update_sync_status, hk]
    exact lookupA_upsertA_self _ _ _

/-- Witness for C6 on a concrete state and one-element batch. -/
theorem c6_ingest_routing_witness :
    lookupA "k" ([("k", ⟨"BankA", 2⟩)] : List (String × ClientInfo)) =
      some ⟨"BankA", 2⟩ ∧
    ([⟨"a", "IDENTITY_THEFT", "VICTIM", 1⟩] : List BatchItem) =
      [] ++ (⟨"a", "IDENTITY_THEFT", "VICTIM", 1⟩ : BatchItem) :: [] ∧
    (lookupA "a" (register_incident_batch "k" [⟨"a", "IDENTITY_THEFT", "VICTIM", 1⟩]
        { kms := ⟨2, [(1, 5), (2, 7)]⟩, clients := [("k", ⟨"BankA", 2⟩)],
          ledger := [], stores := [(1, []), (2, [])] }).ledger =
      some ⟨"IDENTITY_THEFT", "VICTIM", 1⟩ ∧
     lookupA 2 (register_incident_batch "k" [⟨"a", "IDENTITY_THEFT", "VICTIM", 1⟩]
        { kms := ⟨2, [(1, 5), (2, 7)]⟩, clients := [("k", ⟨"BankA", 2⟩)],
          ledger := [], stores := [(1, []), (2, [])] }).stores =
      some (register_incident_batch "k" [⟨"a", "IDENTITY_THEFT", "VICTIM", 1⟩]
        { kms := ⟨2, [(1, 5), (2, 7)]⟩, clients := [("k", ⟨"BankA", 2⟩)],
          ledger := [], stores := [(1, []), (2, [])] }).ledger ∧
     lookupA "k" (register_incident_batch "k" [⟨"a", "IDENTITY_THEFT", "VICTIM", 1⟩]
        { kms := ⟨2, [(1, 5), (2, 7)]⟩, clients := [("k", ⟨"BankA", 2⟩)],
          ledger := [], stores := [(1, []), (2, [])] }).clients =
      some ⟨"BankA", 2⟩) :=
  ⟨by decide, rfl,
   c6_ingest_routing
     { kms := ⟨2, [(1, 5), (2, 7)]⟩, clients := [("k", ⟨"BankA", 2⟩)],
       ledger := [], stores := [(1, []), (2, [])] }
     "k" [⟨"a", "IDENTITY_THEFT", "VICTIM", 1⟩] ⟨"BankA", 2⟩
     [] ⟨"a", "IDENTITY_THEFT", "VICTIM", 1⟩ []
     (by decide) rfl (by decide)⟩

/-! ## Lemmas about the Python string primitives -/

/-- A map that fixes every member of a list fixes the list. -/
theorem map_id_of_mem {l : List Char} {f : Char → Char}
    (h : ∀ c ∈ l, f c = c) : l.map f = l := by
  induction l with
  | nil => rfl
  | cons c t ih =>
    simp only [List.map_cons, h c (by simp), ih (fun x hx => h x (by simp [hx]))]

/-- `dropWhile` keeps a list none of whose members satisfy the test. -/
theorem dropWhile_eq_self_of_not {l : List Char} {p : Char → Bool}
    (h : ∀ c ∈ l, p c = false) : l.dropWhile p = l := by
  cases l with
  | nil => rfl
  | cons c t => simp [List.dropWhile_cons, h c (by simp)]

/-- `pyStrip` keeps a list containing no Python whitespace. -/
theorem pyStrip_eq_self {l : List Char}
    (h : ∀ c ∈ l, pyIsSpace c = false) : pyStrip l = l := by
  unfold pyStrip
  rw [dropWhile_eq_self_of_not h,
      dropWhile_eq_self_of_not (fun c hc => h c (List.mem_reverse.mp hc)),
      List.reverse_reverse]

/-- An ASCII digit is already lowercase. -/
theorem pyLower_digit {c : Char} (h : pyIsDigit c = true) : pyLower c = c := by
  simp only [pyIsDigit, Bool.and_eq_true, decide_eq_true_eq] at h
  unfold pyLower
  rw [if_neg]
  omega

/-- An ASCII digit is not Python whitespace. -/
theorem pyIsSpace_digit {c : Char} (h : pyIsDigit c = true) :
    pyIsSpace c = false := by
  simp only [pyIsDigit, Bool.and_eq_true, decide_eq_true_eq] at h
  simp only [pyIsSpace, Bool.or_eq_false_iff, decide_eq_false_iff_not]
  omega

/-- Cleaning a kind-tagged all-digit string for a digit-stripping kind
recovers exactly the digits: the tag contributes no digits, no
whitespace and no uppercase letters. -/
theorem clean_digits_tagged (pre d : List Char)
    (hp1 : ∀ c ∈ pre, pyLower c = c)
    (hp2 : ∀ c ∈ pre, pyIsSpace c = false)
    (hp3 : List.filter pyIsDigit pre = [])
    (hd : ∀ c ∈ d, pyIsDigit c = true) :
    (pyStrip ((pre ++ ':' :: d).map pyLower)).filter pyIsDigit = d := by
  have hmap : (pre ++ ':' :: d).map pyLower = pre ++ ':' :: d := by
    refine map_id_of_mem ?_
    intro c hc
    rcases List.mem_append.mp hc with hc | hc
    · exact hp1 c hc
    · rcases List.mem_cons.mp hc with rfl | hc
      · decide
      · exact pyLower_digit (hd c hc)
  have hstrip : pyStrip (pre ++ ':' :: d) = pre ++ ':' :: d := by
    refine pyStrip_eq_self ?_
    intro c hc
    rcases List.mem_append.mp hc with hc | hc
    · exact hp2 c hc
    · rcases List.mem_cons.mp hc with rfl | hc
      · decide
      · exact pyIsSpace_digit (hd c hc)
  rw [hmap, hstrip, List.filter_append, hp3]
  simp only [List.nil_append, List.filter_cons]
  rw [if_neg (by decide)]
  exact List.filter_eq_self.mpr hd

/-- `normalize_input` for the `phone` kind, on nonempty input. -/
theorem normalize_input_phone_eq (v : String) (hv : ¬ v = "") :
    normalize_input "phone" v =
      some (String.mk ("phone".data ++ ':' ::
        (pyStrip (v.data.map pyLower)).filter pyIsDigit)) := by
  simp [normalize_input, hv]

/-- `normalize_input` for the `sin` kind, on nonempty input. -/
theorem normalize_input_sin_eq (v : String) (hv : ¬ v = "") :
    normalize_input "sin" v =
      some (String.mk ("sin".data ++ ':' ::
        (pyStrip (v.data.map pyLower)).filter pyIsDigit)) := by
  simp [normalize_input, hv]

/-- Idempotence of `phone` normalization: the second pass strips the
`phone:` tag as non-digits and returns the first pass's output. -/
theorem normalize_phone_idem (v s : String)
    (h : normalize_input "phone" v = some s) :
    normalize_input "phone" s = some s := by
  by_cases hv : v = ""
  · rw [hv] at h
    simp [normalize_input] at h
  · rw [normalize_input_phone_eq v hv] at h
    set d := (pyStrip (v.data.map pyLower)).filter pyIsDigit with hdd
    obtain rfl : String.mk ("phone".data ++ ':' :: d) = s := Option.some.inj h
    have hdig : ∀ c ∈ d, pyIsDigit c = true := fun c hc => (List.mem_filter.mp hc).2
    have hne : ¬ (String.mk ("phone".data ++ ':' :: d) = "") := by
      intro hcon
      have h2 := congrArg String.data hcon
      simp at h2
    rw [normalize_input_phone_eq _ hne]
    congr 2
    exact congrArg (fun x => "phone".data ++ ':' :: x)
      (clean_digits_tagged "phone".data d (by decide) (by decide) (by decide) hdig)

/-- Idempotence of `sin` normalization, by the same argument. -/
theorem normalize_sin_idem (v s : String)
    (h : normalize_input "sin" v = some s) :
    normalize_input "sin" s = some s := by
  by_cases hv : v = ""
  · rw [hv] at h
    simp [normalize_input] at h
  · rw [normalize_input_sin_eq v hv] at h
    set d := (pyStrip (v.data.map pyLower)).filter pyIsDigit with hdd
    obtain rfl : String.mk ("sin".data ++ ':' :: d) = s := Option.some.inj h
    have hdig : ∀ c ∈ d, pyIsDigit c = true := fun c hc => (List.mem_filter.mp hc).2
    have hne : ¬ (String.mk ("sin".data ++ ':' :: d) = "") := by
      intro hcon
      have h2 := congrArg String.data hcon
      simp at h2
    rw [normalize_input_sin_eq _ hne]
    congr 2
    exact congrArg (fun x => "sin".data ++ ':' :: x)
      (clean_digits_tagged "sin".data d (by decide) (by decide) (by decide) hdig)

/-- C8 counterexample: the claim's idempotence fails for the `email`
kind on a value already in canonical form, because re-normalizing
prepends the `email:` kind tag a second time. -/
theorem c8_counterexample :
    normalize_input "email" "alice@gmail.com" = some "email:alice@gmail.com" ∧
    normalize_input "email" "email:alice@gmail.com" =
      some "email:email:alice@gmail.com" ∧
    normalize_input "email" "email:alice@gmail.com" ≠
      some "email:alice@gmail.com" := by
  refine ⟨by decide, by decide, by decide⟩

/-- C8 (amended): idempotence holds for the digit-stripping kinds —
for `phone` and `sin`, re-normalizing any normalized output returns it
unchanged, for every nonempty input value, because the kind tag is
stripped as non-digits — but fails for `email` and `name`, whose kind
tag is prepended again; the two claimed example pairs hold:
`"514-555-0000"` and `"5145550000"` normalize identically under
`phone`, and `"Alice@Gmail.com "` and `"alice@gmail.com"` normalize
identically under `email`. -/
theorem c8_normalization_idempotence :
    (∀ v s, normalize_input "phone" v = some s → normalize_input "phone" s = some s) ∧
    (∀ v s, normalize_input "sin" v = some s → normalize_input "sin" s = some s) ∧
    normalize_input "phone" "514-555-0000" = normalize_input "phone" "5145550000" ∧
    normalize_input "email" "Alice@Gmail.com " = normalize_input "email" "alice@gmail.com" :=
  ⟨normalize_phone_idem, normalize_sin_idem, by decide, by decide⟩

/-- Witness for C8 on concrete phone and sin values. -/
theorem c8_normalization_idempotence_witness :
    (normalize_input "phone" "5145550000" = some "phone:5145550000" ∧
     normalize_input "phone" "phone:5145550000" = some "phone:5145550000") ∧
    (normalize_input "sin" "046-454-286" = some "sin:046454286" ∧
     normalize_input "sin" "sin:046454286" = some "sin:046454286") :=
  ⟨⟨by decide, c8_normalization_idempotence.1 "5145550000" "phone:5145550000" (by decide)⟩,
   ⟨by decide, c8_normalization_idempotence.2.1 "046-454-286" "sin:046454286" (by decide)⟩⟩

/-- C10: `map_string_to_group` applies its own cleaning (strip,
lowercase, and removal of every space character) before hashing, so
any two strings with the same cleaned form — in particular normalized
attributes differing only in letter case or internal spaces — map to
the same field element; concretely, the name inputs `"John Smith"`
and `"johnsmith"` have distinct normalized forms `"name:john smith"`
and `"name:johnsmith"`, yet those two strings produce identical field
elements, and hence identical opaque signatures for any blinding
factor and server secret. -/
theorem c10_map_cleaning :
    (∀ t1 t2 : String, mapClean t1 = mapClean t2 →
      map_string_to_group t1 = map_string_to_group t2) ∧
    normalize_input "name" "John Smith" = some "name:john smith" ∧
    normalize_input "name" "johnsmith" = some "name:johnsmith" ∧
    normalize_input "name" "John Smith" ≠ normalize_input "name" "johnsmith" ∧
    map_string_to_group "name:john smith" = map_string_to_group "name:johnsmith" ∧
    (∀ r key : ℕ, client_final_signature "name:john smith" r key =
      client_final_signature "name:johnsmith" r key) := by
  have hgen : ∀ t1 t2 : String, mapClean t1 = mapClean t2 →
      map_string_to_group t1 = map_string_to_group t2 := by
    intro t1 t2 h
    simp only [map_string_to_group]
    rw [h]
  have hmap : map_string_to_group "name:john smith" = map_string_to_group "name:johnsmith" :=
    hgen _ _ (by decide)
  refine ⟨hgen, by decide, by decide, by decide, hmap, ?_⟩
  intro r key
  simp only [client_final_signature, hmap]

/-- Witness for C10's congruence part on a concrete pair of strings
that differ in case and internal spacing. -/
theorem c10_map_cleaning_witness :
    mapClean "A b" = mapClean "ab" ∧
    map_string_to_group "A b" = map_string_to_group "ab" :=
  ⟨by decide, c10_map_cleaning.1 "A b" "ab" (by decide)⟩

/-- Supporting lemma for the blind-signature round-trip: IF the
modulus is prime, then for every base `x`, every blinding factor
coprime to `PHI`, and every secret exponent `k`, unblinding the signed
blinded value recovers `x ^ k mod PRIME_MODULUS`.  The primality of
the fixed 1536-bit RFC 3526 modulus is the one fact this development
cannot discharge: no kernel-checkable certificate is feasible (trial
division is astronomically large, and Pratt/Pocklington chains need
the unknown factorization of `(PRIME_MODULUS - 3) / 2`). -/
theorem mod_pow_roundtrip_of_prime (hp : Nat.Prime PRIME_MODULUS) (x r k w : ℕ)
    (hr : Nat.gcd r PHI = 1) (hw : mod_inverse r = some w) :
    mod_pow (mod_pow (mod_pow x r) k) w = mod_pow x k := by
  haveI : Fact (Nat.Prime PRIME_MODULUS) := ⟨hp⟩
  have hPHI1 : 1 < PHI := by decide
  have hr1 : 1 ≤ r := by
    rcases Nat.eq_zero_or_pos r with h0 | h
    · rw [h0, Nat.gcd_zero_left] at hr
      omega
    · exact h
  have hrw : r * w % PHI = 1 := by
    obtain ⟨w', hw', hmul⟩ := mod_inverse_spec r hr
    rw [hw] at hw'
    rw [Option.some.inj hw']
    exact hmul
  have hw1 : 1 ≤ w := by
    rcases Nat.eq_zero_or_pos w with h0 | h
    · rw [h0, Nat.mul_zero, Nat.zero_mod] at hrw
      omega
    · exact h
  have hL : mod_pow (mod_pow (mod_pow x r) k) w = x ^ (r * k * w) % PRIME_MODULUS := by
    simp only [mod_pow]
    rw [← Nat.pow_mod, ← pow_mul, ← Nat.pow_mod, ← pow_mul]
    have hexp : r * (k * w) = r * k * w := by ring
    rw [hexp]
  have hR : mod_pow x k = x ^ k % PRIME_MODULUS := rfl
  rw [hL, hR]
  have key : (x : ZMod PRIME_MODULUS) ^ (r * k * w) = (x : ZMod PRIME_MODULUS) ^ k := by
    by_cases hX : (x : ZMod PRIME_MODULUS) = 0
    · rcases Nat.eq_zero_or_pos k with hk | hk
      · simp [hk]
      · rw [hX, zero_pow (Nat.mul_ne_zero (Nat.mul_ne_zero (by omega) (by omega)) (by omega)),
              zero_pow (by omega : k ≠ 0)]
    · have hfer : (x : ZMod PRIME_MODULUS) ^ PHI = 1 := ZMod.pow_card_sub_one_eq_one hX
      obtain ⟨m, hm⟩ : ∃ m, r * w = PHI * m + 1 :=
        ⟨r * w / PHI, by have := Nat.div_add_mod (r * w) PHI; omega⟩
      have hexp : r * k * w = r * w * k := by ring
      calc (x : ZMod PRIME_MODULUS) ^ (r * k * w)
          = ((x : ZMod PRIME_MODULUS) ^ (r * w)) ^ k := by
            rw [hexp, pow_mul]
        _ = (((x : ZMod PRIME_MODULUS) ^ PHI) ^ m * (x : ZMod PRIME_MODULUS)) ^ k := by
            rw [hm, pow_add, pow_mul, pow_one]
        _ = (x : ZMod PRIME_MODULUS) ^ k := by rw [hfer, one_pow, one_mul]
  have hcast : ((x ^ (r * k * w) : ℕ) : ZMod PRIME_MODULUS) =
      ((x ^ k : ℕ) : ZMod PRIME_MODULUS) := by
    push_cast
    exact key
  exact (ZMod.natCast_eq_natCast_iff _ _ _).mp hcast

/-- Supporting lemma for cross-session determinism: IF the modulus is
prime, the client pipeline yields the same opaque signature for the
same cleaned attribute under any two valid blinding factors.  Like the
round-trip, this is conditional on the undischargeable primality of
the fixed modulus. -/
theorem client_signature_deterministic_of_prime (hp : Nat.Prime PRIME_MODULUS)
    (clean_val : String) (key r1 r2 : ℕ)
    (h1 : Nat.gcd r1 PHI = 1) (h2 : Nat.gcd r2 PHI = 1) :
    client_final_signature clean_val r1 key = client_final_signature clean_val r2 key := by
  obtain ⟨w1, hw1, _⟩ := mod_inverse_spec r1 h1
  obtain ⟨w2, hw2, _⟩ := mod_inverse_spec r2 h2
  simp only [client_final_signature, hw1, hw2, Option.map_some']
  rw [mod_pow_roundtrip_of_prime hp _ r1 key w1 h1 hw1,
      mod_pow_roundtrip_of_prime hp _ r2 key w2 h2 hw2]
